import Mathlib

/-!
Shallow embedding of the expense-tracker logic of `src/App.tsx` and
`src/types.ts` (the gestor-financeiro repository), together with proofs of the
behavioural properties of its store, monthly aggregator and input-processing
flow.

Conventions of the embedding:
* JS numbers that hold money amounts are IEEE-754 binary64 values. They are
  embedded as `ℚ` for the claims whose truth does not depend on per-addition
  rounding (order comparisons, positivity, which category an amount is added
  to); where a claim depends on the rounding itself (the exact-sum property),
  binary64 addition is modelled faithfully by `F64` and `f64Add`.
* `localStorage` is embedded as an `Option (List Expense)` field of the app
  state; the persistence effect of App.tsx lines 121-123 is folded into the
  state transition of each mutation.
* `Array.prototype.sort` is a stable comparator sort; it is embedded as
  `List.mergeSort`, which is stable.
* The comparator `(a, b) => new Date(a.date).getTime() - new Date(b.date).getTime()`
  (App.tsx lines 117 and 205) is embedded through `dateKey`: for valid
  `YYYY-MM-DD` strings, `getTime()` is a strictly increasing affine function of
  the day number computed by `dateKey`, so the sign of the comparator is the
  comparison of the `dateKey` values.
* The external collaborators (Gemini calls, the system clock, `JSON.parse`)
  are inputs of the embedded transition functions: each transition takes the
  collaborator responses it consumes as explicit arguments.
* Toast messages are embedded by their semantic content (which `setToast` call
  site fired, with which parameters); the locale rendering of amounts and
  dates is presentation.
-/

namespace Gestor

/-- The closed enumeration of the nine spending categories, src/types.ts. -/
inductive ExpenseCategory where
  | ALIMENTACAO
  | TRANSPORTE
  | LAZER
  | CONTAS_FIXAS
  | SAUDE
  | INVESTIMENTOS
  | EDUCACAO
  | COMPRAS
  | OUTROS
deriving DecidableEq

/-- The categories in declaration order: this is the order of
`Object.values(ExpenseCategory)` used by `CATEGORY_NAMES_ARRAY` and by the
`reduce`/`every` over the summary record in App.tsx lines 154-172. -/
def categoryList : List ExpenseCategory :=
  [.ALIMENTACAO, .TRANSPORTE, .LAZER, .CONTAS_FIXAS, .SAUDE,
   .INVESTIMENTOS, .EDUCACAO, .COMPRAS, .OUTROS]

/-- An expense record, src/types.ts. The program stores `amount` as a
binary64 number; it is carried here as `ℚ` for the claims that are robust to
per-addition rounding (see `F64` for the rounding-faithful number model). -/
structure Expense where
  id : String
  amount : ℚ
  description : String
  date : String
  category : ExpenseCategory
  originalInput : String
deriving DecidableEq

/-- Query intents returned by the interpreter, src/types.ts. -/
inductive QueryType where
  | RESUMO_GERAL
  | TOTAL_CATEGORIA
  | DESCONHECIDO
  | REGISTRO_DESPESA
deriving DecidableEq

/-- Result of `interpretUserQueryWithGemini`, src/types.ts `ParsedQuery`. -/
structure ParsedQuery where
  tipoQuery : QueryType
  categoria : Option ExpenseCategory
deriving DecidableEq

/-- Result of `parseExpenseInputWithGemini`, src/types.ts `ParsedExpenseData`. -/
structure ParsedExpenseData where
  valor : Option ℚ
  descricao : Option String
  data : Option String
deriving DecidableEq

/-- Model of JS `String.prototype.startsWith`: the characters of `p` are a
prefix of the characters of `s`. -/
def strStartsWith (s p : String) : Bool :=
  p.data.isPrefixOf s.data

/-- Model of JS `String.prototype.trim` (the code only ever trims ASCII
whitespace): drop whitespace characters from both ends. -/
def strTrim (s : String) : String :=
  ⟨((s.data.dropWhile Char.isWhitespace).reverse.dropWhile Char.isWhitespace).reverse⟩

/-- Decision of the character class `\d`. -/
def isDigitChar (c : Char) : Bool :=
  decide ('0' ≤ c) && decide (c ≤ '9')

/-- Numeric value of a digit character. -/
def digitVal (c : Char) : Nat :=
  c.toNat - '0'.toNat

/-- The regex test `/^\d{4}-\d{2}-\d{2}$/.test(finalDate)` of App.tsx line 190. -/
def matchesDateShape (s : String) : Bool :=
  match s.data with
  | [y1, y2, y3, y4, h1, m1, m2, h2, d1, d2] =>
    isDigitChar y1 && isDigitChar y2 && isDigitChar y3 && isDigitChar y4 &&
    h1 == '-' && isDigitChar m1 && isDigitChar m2 && h2 == '-' &&
    isDigitChar d1 && isDigitChar d2
  | _ => false

/-- Year, month and day fields of a `YYYY-MM-DD` string (0 when the string does
not have that shape; only used under `matchesDateShape`). -/
def dateComponents (s : String) : Nat × Nat × Nat :=
  match s.data with
  | [y1, y2, y3, y4, _, m1, m2, _, d1, d2] =>
    (((digitVal y1 * 10 + digitVal y2) * 10 + digitVal y3) * 10 + digitVal y4,
     digitVal m1 * 10 + digitVal m2,
     digitVal d1 * 10 + digitVal d2)
  | _ => (0, 0, 0)

/-- Gregorian leap-year rule, as applied by the ECMAScript `Date` parser. -/
def isLeapYear (y : Nat) : Bool :=
  (y % 4 == 0 && !(y % 100 == 0)) || y % 400 == 0

/-- Number of days of month `m` of year `y`. -/
def daysInMonth (y m : Nat) : Nat :=
  if m == 2 then (if isLeapYear y then 29 else 28)
  else if m == 4 || m == 6 || m == 9 || m == 11 then 30
  else 31

/-- The full date validation of App.tsx line 190:
`/^\d{4}-\d{2}-\d{2}$/.test(finalDate) && !isNaN(new Date(finalDate).getTime())`.
For a string of the shape `YYYY-MM-DD`, the ECMAScript ISO date parser yields
`NaN` exactly when the fields are not a real calendar date (month outside
1..12 or day outside 1..days-in-month); every 4-digit year is accepted. -/
def isValidDateString (s : String) : Bool :=
  matchesDateShape s &&
  (let c := dateComponents s
   decide (1 ≤ c.2.1) && decide (c.2.1 ≤ 12) &&
   decide (1 ≤ c.2.2) && decide (c.2.2 ≤ daysInMonth c.1 c.2.1))

/-- Day number of a `YYYY-MM-DD` date in the proleptic Gregorian calendar,
shifted by 400 years so that every intermediate value is a natural number.
For valid date strings, `new Date(s).getTime()` equals
`86400000 * (dateKey s - 719468 - 146097)` and is therefore a strictly
increasing affine function of this key, so every comparison the code performs
through `getTime()` is a comparison of `dateKey` values. -/
def dateKey (s : String) : Nat :=
  let c := dateComponents s
  let y := c.1
  let m := c.2.1
  let d := c.2.2
  let yy := if m ≤ 2 then y + 399 else y + 400
  let era := yy / 400
  let yoe := yy % 400
  let mp := (m + 9) % 12
  let doy := (153 * mp + 2) / 5 + d - 1
  let doe := yoe * 365 + yoe / 4 - yoe / 100 + doy
  era * 146097 + doe

/-- The comparator of the two sorts of the expense list (App.tsx lines 117
and 205): `(a, b) => new Date(a.date).getTime() - new Date(b.date).getTime()`,
read as the boolean predicate "a sorts no later than b". -/
def dateLE (a b : Expense) : Bool :=
  decide (dateKey a.date ≤ dateKey b.date)

/-- Sorting of the expense list, `.sort((a, b) => ...getTime() - ...getTime())`
in App.tsx lines 117 and 205. `Array.prototype.sort` is stable. -/
def sortByDate (l : List Expense) : List Expense :=
  l.mergeSort dateLE

/-- The slice `exp.date.slice(0, 7)` producing the `YYYY-MM` part of a date,
App.tsx lines 134 and 209. -/
def monthSlice (s : String) : String :=
  ⟨s.data.take 7⟩

/-- Distinct `YYYY-MM` values of the expense dates in first-seen order,
App.tsx lines 133-134: a JS `Set` preserves insertion order and
`Array.from` reads it back in that order. -/
def monthsOfExpenses (expenses : List Expense) : List String :=
  expenses.foldl
    (fun acc e => if monthSlice e.date ∈ acc then acc else acc ++ [monthSlice e.date])
    []

/-- The comparator `(a, b) => a.localeCompare(b)` of App.tsx line 139, read as
"a sorts no later than b". On the `YYYY-MM` strings being compared (ASCII
digits and dashes), `localeCompare` agrees with code-point order. -/
def strLE (a b : String) : Bool :=
  decide (a ≤ b)

/-- The derived month list of App.tsx lines 132-140: the distinct months of
the expenses, plus the current month (in the fixed America/Sao_Paulo zone)
when absent, sorted ascending. The clock-dependent current month
`getCurrentMonthYearGMT3()` is passed in as `currentMonth`. -/
def availableMonths (expenses : List Expense) (currentMonth : String) : List String :=
  let months := monthsOfExpenses expenses
  let months := if currentMonth ∈ months then months else months ++ [currentMonth]
  months.mergeSort strLE

/-- Portuguese month names as produced by
`toLocaleString('pt-BR', { month: 'long' })`. -/
def monthNamePt (m : Nat) : String :=
  match m with
  | 1 => "janeiro"
  | 2 => "fevereiro"
  | 3 => "março"
  | 4 => "abril"
  | 5 => "maio"
  | 6 => "junho"
  | 7 => "julho"
  | 8 => "agosto"
  | 9 => "setembro"
  | 10 => "outubro"
  | 11 => "novembro"
  | 12 => "dezembro"
  | _ => ""

/-- The month label of App.tsx lines 34-38: split `YYYY-MM` on the dash and
render it as `toLocaleString('pt-BR', { month: 'long', year: 'numeric' })`
does, "<month name> de <year>". -/
def formatMonthYear (monthYear : String) : String :=
  match monthYear.splitOn "-" with
  | [y, m] => monthNamePt (m.toNat?.getD 0) ++ " de " ++ y
  | _ => ""

/-- Accumulator of the aggregation loop of App.tsx lines 153-170: the
per-category record built by the initial `reduce`, the running grand total and
the running highest-spending entry. -/
structure AggState where
  summary : ExpenseCategory → ℚ
  grandTotal : ℚ
  highest : Option (ExpenseCategory × ℚ)

/-- Initial accumulator: every category total zero (App.tsx lines 154-157),
grand total zero, no highest-spending entry (lines 159-160). -/
def initAgg : AggState :=
  ⟨fun _ => 0, 0, none⟩

/-- One iteration of the `forEach` of App.tsx lines 164-170:
`summary[exp.category] += exp.amount; grandTotal += exp.amount;` and the
highest-spending entry is replaced exactly when it is absent or the updated
running total of the expense's category strictly exceeds its amount. (The
`|| 0` of line 165 is the identity here: every category is initialised to 0.)
The two `+=` are binary64 additions in the program; the `ℚ` addition used
here is their exact idealization, adequate for the claims about which entry
is tracked and when totals are zero or positive, and `monthlyTotalsF` is the
rounding-faithful version of the two accumulating sums. -/
def aggStep (st : AggState) (e : Expense) : AggState :=
  let s := fun c => if c = e.category then st.summary e.category + e.amount else st.summary c
  let g := st.grandTotal + e.amount
  let h := match st.highest with
    | none => some (e.category, s e.category)
    | some (hc, ha) => if ha < s e.category then some (e.category, s e.category) else some (hc, ha)
  ⟨s, g, h⟩

/-- The derived monthly summary, src/types.ts `MonthlySummaryData`. -/
structure MonthlySummaryData where
  categoryTotals : ExpenseCategory → ℚ
  grandTotal : ℚ
  highestSpending : Option (ExpenseCategory × ℚ)
  monthLabel : String

/-- The monthly aggregator of App.tsx lines 153-180: filter the expenses whose
date starts with the selected month, fold the aggregation step over them, and
return `null` when the grand total is zero and every category total is zero
(`Object.values(summary).every(s => s === 0)` ranges over the nine categories
in declaration order). -/
def monthlySummaryData (expenses : List Expense) (selectedMonth : String) :
    Option MonthlySummaryData :=
  let st := (expenses.filter (fun e => strStartsWith e.date selectedMonth)).foldl aggStep initAgg
  if st.grandTotal = 0 ∧ ∀ c ∈ categoryList, st.summary c = 0 then none
  else some ⟨st.summary, st.grandTotal, st.highest, formatMonthYear selectedMonth⟩

/-- Sum of the nine values of a category-totals record, in the
`Object.values` order. -/
def sumCategoryTotals (t : ExpenseCategory → ℚ) : ℚ :=
  (categoryList.map t).sum

/-- Total amount of the expenses of category `c` in `l` (specification-side
quantity used to state what the running totals compute). -/
def catSum (c : ExpenseCategory) (l : List Expense) : ℚ :=
  (l.map (fun e => if e.category = c then e.amount else 0)).sum

/-- Total amount of all expenses in `l`. -/
def amountSum (l : List Expense) : ℚ :=
  (l.map (fun e => e.amount)).sum

/-- Which `setToast` call fired, with its data, src/App.tsx. The rendered
string of each call site carries exactly these parameters. -/
inductive ToastMsg where
  | apiKeyMissingStartup
  | invalidDate (d : String)
  | expenseAdded (amount : ℚ) (category : ExpenseCategory) (date : String)
  | addFailed
  | apiKeyMissing
  | emptyInput
  | couldNotParseExpense
  | summaryShown (month : String)
  | categoryTotal (category : ExpenseCategory) (month : String) (amount : ℚ)
  | unknownCommand
deriving DecidableEq

/-- Toast severity, src/App.tsx line 104. -/
inductive ToastType where
  | success
  | error
  | info
deriving DecidableEq

/-- The reactive state of the component that the claims are about: the expense
list, the text input, the API-key flag, the selected month, the last toast and
the `localStorage` blob (the persistence effect of App.tsx lines 121-123 is
applied with each expense-list update). -/
structure AppState where
  expenses : List Expense
  userInput : String
  apiKeyExists : Bool
  selectedMonth : String
  toast : Option (ToastType × ToastMsg)
  storage : Option (List Expense)
deriving DecidableEq

/-- The add-expense flow of App.tsx lines 183-224, taking the extraction
result (`valor`, `descricao`, `data`), the original input text, the response
of `categorizeExpenseWithGemini` and the generated id as inputs. Invalid dates
are rejected before any record is created; otherwise the new record is
appended, the list re-sorted by date and persisted, and the selected month
switched to the expense's month when it differs. -/
def handleAddExpense (s : AppState) (valor : ℚ) (descricao data originalInputText : String)
    (categorized : Option ExpenseCategory) (newId : String) : AppState :=
  let category := categorized.getD ExpenseCategory.OUTROS
  if isValidDateString data = false then
    { s with toast := some (ToastType.error, ToastMsg.invalidDate data) }
  else
    let newExpense : Expense := ⟨newId, valor, descricao, data, category, originalInputText⟩
    let newList := sortByDate (s.expenses ++ [newExpense])
    let s1 : AppState :=
      { s with expenses := newList, storage := some newList,
               toast := some (ToastType.success, ToastMsg.expenseAdded valor category data),
               userInput := "" }
    let expenseMonth := monthSlice data
    if s1.selectedMonth ≠ expenseMonth then { s1 with selectedMonth := expenseMonth } else s1

/-- Result of one submission: the successor state and whether the interpreter
(`interpretUserQueryWithGemini`) was called at all. -/
structure ProcessResult where
  state : AppState
  interpreterCalled : Bool
deriving DecidableEq

/-- The submission flow of App.tsx lines 226-259. The collaborator responses
consumed along the way (interpretation, expense extraction, categorization)
and the generated id are explicit inputs. Blank input or a missing API key
short-circuits before the interpreter call with an error toast; otherwise the
flow dispatches on the interpreted intent. -/
def handleProcessInput (s : AppState) (interpretation : Option ParsedQuery)
    (parsedExpense : Option ParsedExpenseData)
    (categorized : Option ExpenseCategory) (newId : String) : ProcessResult :=
  if strTrim s.userInput = "" ∨ s.apiKeyExists = false then
    if s.apiKeyExists = false then
      ⟨{ s with toast := some (ToastType.error, ToastMsg.apiKeyMissing) }, false⟩
    else
      ⟨{ s with toast := some (ToastType.error, ToastMsg.emptyInput) }, false⟩
  else
    match interpretation with
    | some ⟨QueryType.REGISTRO_DESPESA, _⟩ =>
      match parsedExpense with
      | some ⟨some v, some de, some da⟩ =>
        ⟨handleAddExpense s v de da s.userInput categorized newId, true⟩
      | _ =>
        ⟨{ s with toast := some (ToastType.error, ToastMsg.couldNotParseExpense) }, true⟩
    | some ⟨QueryType.RESUMO_GERAL, _⟩ =>
      ⟨{ s with toast := some (ToastType.info, ToastMsg.summaryShown s.selectedMonth),
                userInput := "" }, true⟩
    | some ⟨QueryType.TOTAL_CATEGORIA, some c⟩ =>
      let total := ((monthlySummaryData s.expenses s.selectedMonth).map
        (fun d => d.categoryTotals c)).getD 0
      ⟨{ s with toast := some (ToastType.info, ToastMsg.categoryTotal c s.selectedMonth total),
                userInput := "" }, true⟩
    | _ =>
      ⟨{ s with toast := some (ToastType.error, ToastMsg.unknownCommand) }, true⟩

/-- The load effect of App.tsx lines 113-118. `stored` is
`localStorage.getItem('expenses')` (`none` when the key is absent); `parse`
models the platform `JSON.parse`, with `none` standing for a thrown
`SyntaxError`. The guard `if (storedExpenses)` is a truthiness test, so both
a missing key (null) and an empty-string blob skip parsing and leave the
list empty. For a non-empty blob the effect does not catch the `JSON.parse`
exception, so an unparsable blob makes the load fail (`Except.error`)
instead of producing a list. -/
def loadFromStorage (stored : Option String) (parse : String → Option (List Expense)) :
    Except Unit (List Expense) :=
  match stored with
  | none => Except.ok []
  | some str =>
    if str = "" then Except.ok []
    else
      match parse str with
      | none => Except.error ()
      | some l => Except.ok (sortByDate l)

/-- A finite IEEE-754 binary64 value in the normal range, written as a scaled
integer m * 2^e (the format in which the program's number type stores the
amounts). The representation is not required to be normalised; `f64Eq`
compares represented values, as === of the source does. -/
structure F64 where
  m : ℤ
  e : ℤ
deriving DecidableEq

/-- The number zero. -/
def f64Zero : F64 := ⟨0, 0⟩

/-- Powers of two, by plain structural recursion. -/
def pow2 : Nat → Nat
  | 0 => 1
  | k + 1 => 2 * pow2 k

/-- Number of binary digits of `n`, with an explicit fuel argument making the
recursion structural (`n` itself is always enough fuel). -/
def bitLenAux : Nat → Nat → Nat
  | 0, _ => 0
  | fuel + 1, n => if n = 0 then 0 else bitLenAux fuel (n / 2) + 1

/-- Number of binary digits of `n` (0 for 0). -/
def bitLen (n : Nat) : Nat :=
  bitLenAux n n

/-- Round n / 2^k to the nearest integer, ties to even: the rounding of
binary64 arithmetic. -/
def rnEvenNat (n k : Nat) : Nat :=
  let q := n / pow2 k
  let r := n % pow2 k
  let half := pow2 (k - 1)
  if half < r then q + 1
  else if r < half then q
  else if q % 2 = 0 then q else q + 1

/-- IEEE-754 binary64 addition for values in the normal range (the magnitudes
of the money amounts in play): the exact sum, correctly rounded to 53
significant bits, round-to-nearest, ties-to-even. Overflow and subnormal
behaviour, unreachable at these magnitudes, are not modelled. This is the
`+=` the source applies to amounts in App.tsx lines 165-166. -/
def f64Add (a b : F64) : F64 :=
  let e0 := if a.e ≤ b.e then a.e else b.e
  let M := a.m * (pow2 (a.e - e0).toNat : ℤ) + b.m * (pow2 (b.e - e0).toNat : ℤ)
  if M.natAbs < pow2 53 then ⟨M, e0⟩
  else
    let k := bitLen M.natAbs - 53
    let mag := rnEvenNat M.natAbs k
    let sgn : ℤ := if M < 0 then -1 else 1
    if mag = pow2 53 then ⟨sgn * (pow2 52 : ℤ), e0 + k + 1⟩ else ⟨sgn * (mag : ℤ), e0 + k⟩

/-- Equality of represented binary64 values (JS === on finite numbers). -/
def f64Eq (a b : F64) : Bool :=
  let e0 := if a.e ≤ b.e then a.e else b.e
  a.m * (pow2 (a.e - e0).toNat : ℤ) == b.m * (pow2 (b.e - e0).toNat : ℤ)

/-- An expense record as the running program holds it: the amount is a
binary64 value. Only the fields the aggregation sums read are carried. -/
structure FExpense where
  amount : F64
  date : String
  category : ExpenseCategory

/-- The two accumulating sums of the aggregation loop of App.tsx lines
153-166 under binary64 arithmetic: filter the expenses whose date starts
with the selected month, then `summary[exp.category] += exp.amount;
grandTotal += exp.amount` with correctly rounded additions. The
highest-spending tracking of lines 167-169 reads these sums but never
writes them, so it does not affect the totals and is not repeated here. -/
def monthlyTotalsF (expenses : List FExpense) (selectedMonth : String) :
    (ExpenseCategory → F64) × F64 :=
  (expenses.filter (fun e => strStartsWith e.date selectedMonth)).foldl
    (fun st e =>
      (fun c => if c = e.category then f64Add (st.1 e.category) e.amount else st.1 c,
       f64Add st.2 e.amount))
    (fun _ => f64Zero, f64Zero)

/-- Sum of the nine category totals in the `Object.values` order, under
binary64 addition: the left-hand side of the exact-sum property when it is
checked on the program. -/
def sumCategoryTotalsF (t : ExpenseCategory → F64) : F64 :=
  (categoryList.map t).foldl f64Add f64Zero

/-- The binary64 value of the JS literal 0.1. -/
def f64OfTenth : F64 := ⟨3602879701896397, -55⟩

/-- The binary64 value of the JS literal 0.2. -/
def f64OfFifth : F64 := ⟨3602879701896397, -54⟩

/-- The binary64 value of the JS literal 0.4. -/
def f64OfTwoFifths : F64 := ⟨3602879701896397, -53⟩

/-- Expense list with amounts 0.1 (Food), 0.2 (Transport) and 0.4 (Food) in
one month: concrete data on which the rounded grand total differs from the
rounded sum of the category totals. -/
def wFExpenses : List FExpense :=
  [⟨f64OfTenth, "2024-05-01", ExpenseCategory.ALIMENTACAO⟩,
   ⟨f64OfFifth, "2024-05-02", ExpenseCategory.TRANSPORTE⟩,
   ⟨f64OfTwoFifths, "2024-05-03", ExpenseCategory.ALIMENTACAO⟩]

/-- Concrete expense list used by the witnesses: the scenario of spec.md
section 8 (rent 500 in Fixed Bills on 2024-05-01, snack 50 in Food on
2024-05-03). -/
def wExpenses : List Expense :=
  [⟨"id1", 500, "rent", "2024-05-01", ExpenseCategory.CONTAS_FIXAS, "rent 500"⟩,
   ⟨"id2", 50, "snack", "2024-05-03", ExpenseCategory.ALIMENTACAO, "snack 50"⟩]

/-- The aggregation accumulator of the witness scenario. -/
def wAgg : AggState :=
  (wExpenses.filter (fun e => strStartsWith e.date "2024-05")).foldl aggStep initAgg

/-- The monthly summary of the witness scenario, spelled as the aggregator
builds it. -/
def wSummary : MonthlySummaryData :=
  ⟨wAgg.summary, wAgg.grandTotal, wAgg.highest, formatMonthYear "2024-05"⟩

/-- Concrete app state used by the witnesses. -/
def wState : AppState :=
  { expenses := wExpenses
    userInput := "total de alimentação"
    apiKeyExists := true
    selectedMonth := "2024-05"
    toast := none
    storage := some wExpenses }

/-- Concrete model of `JSON.parse` for the storage states used by the C6
counterexample and witness: a blob such as `"{"` is not valid JSON, so
`JSON.parse` throws on it, modelled by `none`. -/
def wParse : String → Option (List Expense) :=
  fun _ => none

/-! ## Theorems -/

/-- The sort comparator on expenses is transitive. -/
theorem dateLE_trans : ∀ (a b c : Expense), dateLE a b → dateLE b c → dateLE a c := by
  intro a b c hab hbc
  simp only [dateLE, decide_eq_true_eq] at hab hbc ⊢
  exact le_trans hab hbc

/-- The sort comparator on expenses is total. -/
theorem dateLE_total : ∀ (a b : Expense), dateLE a b || dateLE b a := by
  intro a b
  simp only [dateLE, Bool.or_eq_true, decide_eq_true_eq]
  exact Nat.le_total _ _

/-- The month-list comparator is transitive. -/
theorem strLE_trans : ∀ (a b c : String), strLE a b → strLE b c → strLE a c := by
  intro a b c hab hbc
  simp only [strLE, decide_eq_true_eq] at hab hbc ⊢
  exact le_trans hab hbc

/-- The month-list comparator is total. -/
theorem strLE_total : ∀ (a b : String), strLE a b || strLE b a := by
  intro a b
  simp only [strLE, Bool.or_eq_true, decide_eq_true_eq]
  exact le_total a b

/-- The first-seen fold computing the distinct months preserves `Nodup` of the
accumulator. -/
theorem foldl_insertMonth_nodup (l : List Expense) (acc : List String) (h : acc.Nodup) :
    (l.foldl
      (fun acc e => if monthSlice e.date ∈ acc then acc else acc ++ [monthSlice e.date])
      acc).Nodup := by
  induction l generalizing acc with
  | nil => simpa using h
  | cons e l ih =>
    simp only [List.foldl_cons]
    by_cases hm : monthSlice e.date ∈ acc
    · simpa [hm] using ih acc h
    · refine ih _ ?_
      simp [hm, List.nodup_append, h]

/-- The distinct-month list has no duplicates. -/
theorem monthsOfExpenses_nodup (expenses : List Expense) :
    (monthsOfExpenses expenses).Nodup :=
  foldl_insertMonth_nodup expenses [] List.nodup_nil

/-- C9: for every expense list and current month, the derived list of
available months is strictly increasing in lexicographic order (sorted
ascending with no duplicates) and contains the current month. -/
theorem claim9_availableMonths_strictSorted_mem
    (expenses : List Expense) (currentMonth : String) :
    (availableMonths expenses currentMonth).Pairwise (fun a b => a < b) ∧
    currentMonth ∈ availableMonths expenses currentMonth := by
  have hpre : (if currentMonth ∈ monthsOfExpenses expenses then monthsOfExpenses expenses
      else monthsOfExpenses expenses ++ [currentMonth]).Nodup := by
    by_cases hm : currentMonth ∈ monthsOfExpenses expenses
    · simpa [hm] using monthsOfExpenses_nodup expenses
    · simp [hm, List.nodup_append, monthsOfExpenses_nodup expenses]
  constructor
  · have hs : (availableMonths expenses currentMonth).Pairwise (fun a b => strLE a b = true) := by
      simp only [availableMonths]
      exact List.sorted_mergeSort strLE_trans strLE_total _
    have hn : (availableMonths expenses currentMonth).Nodup := by
      simp only [availableMonths]
      exact ((List.mergeSort_perm _ strLE).nodup_iff).mpr hpre
    refine (hs.and hn).imp ?_
    intro a b hab
    refine lt_of_le_of_ne ?_ hab.2
    simpa [strLE] using hab.1
  · simp only [availableMonths, List.mem_mergeSort]
    by_cases hm : currentMonth ∈ monthsOfExpenses expenses
    · simp [hm]
    · simp [hm]

/-- Pointwise effect of one aggregation step on a category total. -/
theorem aggStep_summary (st : AggState) (e : Expense) (c : ExpenseCategory) :
    (aggStep st e).summary c = st.summary c + (if e.category = c then e.amount else 0) := by
  simp only [aggStep]
  by_cases h : c = e.category
  · subst h
    simp
  · rw [if_neg h, if_neg (fun hh => h hh.symm), add_zero]

/-- Effect of one aggregation step on the grand total. -/
theorem aggStep_grandTotal (st : AggState) (e : Expense) :
    (aggStep st e).grandTotal = st.grandTotal + e.amount := by
  simp only [aggStep]

/-- The folded aggregation computes each category total as the sum of the
matching amounts. -/
theorem foldl_aggStep_summary (l : List Expense) (st : AggState) (c : ExpenseCategory) :
    (l.foldl aggStep st).summary c = st.summary c + catSum c l := by
  induction l generalizing st with
  | nil => simp [catSum]
  | cons e l ih =>
    simp only [List.foldl_cons, ih, aggStep_summary, catSum, List.map_cons, List.sum_cons]
    ring

/-- The folded aggregation computes the grand total as the sum of all
amounts. -/
theorem foldl_aggStep_grandTotal (l : List Expense) (st : AggState) :
    (l.foldl aggStep st).grandTotal = st.grandTotal + amountSum l := by
  induction l generalizing st with
  | nil => simp [amountSum]
  | cons e l ih =>
    simp only [List.foldl_cons, ih, aggStep_grandTotal, amountSum, List.map_cons, List.sum_cons]
    ring

/-- Summing an indicator record over the nine categories yields the indicated
amount. -/
theorem sumCategoryTotals_ite (c0 : ExpenseCategory) (a : ℚ) :
    sumCategoryTotals (fun c => if c0 = c then a else 0) = a := by
  cases c0 <;> simp [sumCategoryTotals, categoryList]

/-- The nine-category sum is additive in the record. -/
theorem sumCategoryTotals_add (f g : ExpenseCategory → ℚ) :
    sumCategoryTotals (fun c => f c + g c) = sumCategoryTotals f + sumCategoryTotals g := by
  simp only [sumCategoryTotals, categoryList, List.map_cons, List.map_nil, List.sum_cons,
    List.sum_nil]
  ring

/-- One aggregation step adds the expense's amount to the nine-category sum. -/
theorem aggStep_sumCategoryTotals (st : AggState) (e : Expense) :
    sumCategoryTotals ((aggStep st e).summary) = sumCategoryTotals st.summary + e.amount := by
  have h1 : ((aggStep st e).summary) =
      fun c => st.summary c + (if e.category = c then e.amount else 0) :=
    funext (fun c => aggStep_summary st e c)
  rw [h1, sumCategoryTotals_add, sumCategoryTotals_ite]

/-- The folded aggregation adds all amounts to the nine-category sum. -/
theorem foldl_aggStep_sumCategoryTotals (l : List Expense) (st : AggState) :
    sumCategoryTotals ((l.foldl aggStep st).summary) =
      sumCategoryTotals st.summary + amountSum l := by
  induction l generalizing st with
  | nil => simp [amountSum]
  | cons e l ih =>
    simp only [List.foldl_cons, ih, aggStep_sumCategoryTotals, amountSum, List.map_cons,
      List.sum_cons]
    ring

/-- The initial accumulator has nine-category sum zero. -/
theorem sumCategoryTotals_initAgg : sumCategoryTotals initAgg.summary = 0 := by
  simp [sumCategoryTotals, categoryList, initAgg]

/-- C1 (amended): for every expense list and selected month, whenever the
monthly aggregation produces a summary, the sum of the values of
`categoryTotals` over all nine categories equals `grandTotal` when the
additions are exact (rational) additions. The program adds binary64 numbers,
whose per-addition rounding can break the exact equality because the two
totals accumulate the same amounts in different groupings; see
`claim1_counterexample` for the failure. -/
theorem claim1_sum_categoryTotals_eq_grandTotal (expenses : List Expense)
    (selectedMonth : String) (d : MonthlySummaryData)
    (h : monthlySummaryData expenses selectedMonth = some d) :
    sumCategoryTotals d.categoryTotals = d.grandTotal := by
  simp only [monthlySummaryData] at h
  split at h
  · exact absurd h (by simp)
  · rw [Option.some.injEq] at h
    subst h
    simp only [foldl_aggStep_sumCategoryTotals, foldl_aggStep_grandTotal,
      sumCategoryTotals_initAgg]
    simp [initAgg]

/-- Witness for C1: the scenario of spec.md section 8 produces a summary, and
its nine category totals sum to its grand total. -/
theorem claim1_witness :
    monthlySummaryData wExpenses "2024-05" = some wSummary ∧
    sumCategoryTotals wSummary.categoryTotals = wSummary.grandTotal := by
  have h : monthlySummaryData wExpenses "2024-05" = some wSummary := by
    with_unfolding_all rfl
  exact ⟨h, claim1_sum_categoryTotals_eq_grandTotal wExpenses "2024-05" wSummary h⟩

set_option maxRecDepth 40000 in
/-- Counterexample for C1 as stated: under the binary64 addition the program
performs, the month 2024-05 with amounts 0.1 (Food), 0.2 (Transport) and 0.4
(Food) gives category totals 0.5 and 0.2, whose nine-value sum rounds to 0.7
(6305039478318694 * 2^-53), while the grand total accumulates in date order
to 0.7000000000000001 (6305039478318695 * 2^-53): the sum of the category
totals does not equal the grand total exactly. -/
theorem claim1_counterexample :
    f64Eq (sumCategoryTotalsF (monthlyTotalsF wFExpenses "2024-05").1)
        (monthlyTotalsF wFExpenses "2024-05").2 = false ∧
    (monthlyTotalsF wFExpenses "2024-05").2 = ⟨6305039478318695, -53⟩ ∧
    sumCategoryTotalsF (monthlyTotalsF wFExpenses "2024-05").1 =
      ⟨6305039478318694, -53⟩ := by
  refine ⟨?_, ?_, ?_⟩
  · decide
  · decide
  · decide

/-- Characterization of when the aggregator reports no summary: exactly when
the matched amounts sum to zero and every category total is zero. -/
theorem monthlySummaryData_eq_none_iff (expenses : List Expense) (m : String) :
    monthlySummaryData expenses m = none ↔
      (amountSum (expenses.filter (fun e => strStartsWith e.date m)) = 0 ∧
       ∀ c ∈ categoryList, catSum c (expenses.filter (fun e => strStartsWith e.date m)) = 0) := by
  simp only [monthlySummaryData, foldl_aggStep_grandTotal, foldl_aggStep_summary]
  simp only [initAgg, zero_add]
  split <;> simp_all

/-- Helper for C3: with all amounts positive, the aggregator reports an
absent summary exactly when no expense's date starts with the
selected-month prefix. -/
theorem monthlySummaryData_none_iff_no_match (expenses : List Expense) (selectedMonth : String)
    (hpos : ∀ e ∈ expenses, 0 < e.amount) :
    (monthlySummaryData expenses selectedMonth = none ↔
      ∀ e ∈ expenses, strStartsWith e.date selectedMonth = false) := by
  rw [monthlySummaryData_eq_none_iff]
  constructor
  · rintro ⟨hg, -⟩ e he
    by_contra hne
    have hmem : e ∈ expenses.filter (fun x => strStartsWith x.date selectedMonth) := by
      rw [List.mem_filter]
      exact ⟨he, by simpa using hne⟩
    have hne2 : expenses.filter (fun x => strStartsWith x.date selectedMonth) ≠ [] :=
      List.ne_nil_of_mem hmem
    have hposm : ∀ x ∈ (expenses.filter
        (fun x => strStartsWith x.date selectedMonth)).map (fun e => e.amount), 0 < x := by
      intro x hx
      rw [List.mem_map] at hx
      obtain ⟨e1, he1, rfl⟩ := hx
      exact hpos e1 (List.mem_of_mem_filter he1)
    have hlt := List.sum_pos _ hposm (fun hmap => hne2 (by simpa using hmap))
    rw [amountSum] at hg
    exact absurd hg (ne_of_gt hlt)
  · intro h
    have hnil : expenses.filter (fun x => strStartsWith x.date selectedMonth) = [] := by
      rw [List.filter_eq_nil_iff]
      intro a ha
      simp [h a ha]
    rw [hnil]
    exact ⟨by simp [amountSum], fun c _ => by simp [catSum]⟩

/-- C3: with all amounts positive, the aggregator reports an absent (null)
summary exactly when no expense's date starts with the selected-month
prefix, which is in turn equivalent to the matched amounts summing to zero
(the grand total being zero); conversely, any expense matching the month
forces a non-null summary. -/
theorem claim3_none_iff_no_expense_in_month (expenses : List Expense) (selectedMonth : String)
    (hpos : ∀ e ∈ expenses, 0 < e.amount) :
    (monthlySummaryData expenses selectedMonth = none ↔
      ∀ e ∈ expenses, strStartsWith e.date selectedMonth = false) ∧
    ((∀ e ∈ expenses, strStartsWith e.date selectedMonth = false) ↔
      amountSum (expenses.filter (fun e => strStartsWith e.date selectedMonth)) = 0) ∧
    (∀ e ∈ expenses, strStartsWith e.date selectedMonth = true →
      ∃ d, monthlySummaryData expenses selectedMonth = some d) := by
  have hiff := monthlySummaryData_none_iff_no_match expenses selectedMonth hpos
  refine ⟨hiff, ?_, ?_⟩
  · constructor
    · intro h
      have hnil : expenses.filter (fun x => strStartsWith x.date selectedMonth) = [] := by
        rw [List.filter_eq_nil_iff]
        intro a ha
        simp [h a ha]
      rw [hnil]
      simp [amountSum]
    · intro hg e he
      by_contra hne
      have hmem : e ∈ expenses.filter (fun x => strStartsWith x.date selectedMonth) := by
        rw [List.mem_filter]
        exact ⟨he, by simpa using hne⟩
      have hne2 : expenses.filter (fun x => strStartsWith x.date selectedMonth) ≠ [] :=
        List.ne_nil_of_mem hmem
      have hposm : ∀ x ∈ (expenses.filter
          (fun x => strStartsWith x.date selectedMonth)).map (fun e => e.amount), 0 < x := by
        intro x hx
        rw [List.mem_map] at hx
        obtain ⟨e1, he1, rfl⟩ := hx
        exact hpos e1 (List.mem_of_mem_filter he1)
      have hlt := List.sum_pos _ hposm (fun hmap => hne2 (by simpa using hmap))
      rw [amountSum] at hg
      exact absurd hg (ne_of_gt hlt)
  · intro e he hmatch
    rcases hsome : monthlySummaryData expenses selectedMonth with _ | d
    · exfalso
      have := (hiff.mp hsome) e he
      rw [hmatch] at this
      exact Bool.true_eq_false.mp this
    · exact ⟨d, rfl⟩

/-- Witness for C3: the scenario expenses all have positive amounts, a month
none of them falls in yields an absent summary, and the month they do fall in
yields a present one. -/
theorem claim3_witness :
    (∀ e ∈ wExpenses, 0 < e.amount) ∧
    monthlySummaryData wExpenses "1999-01" = none ∧
    (monthlySummaryData wExpenses "2024-05").isSome = true := by
  have hpos : ∀ e ∈ wExpenses, 0 < e.amount := by decide
  have h99 := (claim3_none_iff_no_expense_in_month wExpenses "1999-01" hpos).1.mpr (by decide)
  obtain ⟨d, hd⟩ := (claim3_none_iff_no_expense_in_month wExpenses "2024-05" hpos).2.2
    (⟨"id1", 500, "rent", "2024-05-01", ExpenseCategory.CONTAS_FIXAS, "rent 500"⟩ : Expense)
    (by decide) (by decide)
  exact ⟨hpos, h99, by rw [hd]; rfl⟩

/-- The re-sorted expense list is sorted by date ascending (with respect to
the comparator of the source, the `getTime()` comparison). -/
theorem sortByDate_sorted (l : List Expense) :
    (sortByDate l).Pairwise (fun a b => dateLE a b = true) :=
  List.sorted_mergeSort dateLE_trans dateLE_total l

/-- The re-sorted expense list is a permutation of the input. -/
theorem sortByDate_perm (l : List Expense) : List.Perm (sortByDate l) l :=
  List.mergeSort_perm l dateLE

/-- Stability of the re-sort: the records of any fixed date (any fixed sort
key) appear in the output in the same relative order as in the input. -/
theorem sortByDate_filter_dateKey (l : List Expense) (k : Nat) :
    (sortByDate l).filter (fun e => decide (dateKey e.date = k)) =
      l.filter (fun e => decide (dateKey e.date = k)) := by
  have hp : (l.filter (fun e => decide (dateKey e.date = k))).Pairwise
      (fun a b => dateLE a b = true) := by
    apply List.pairwise_of_forall_mem_list
    intro a ha b hb
    have ha' := (List.mem_filter.mp ha).2
    have hb' := (List.mem_filter.mp hb).2
    simp only [decide_eq_true_eq] at ha' hb'
    simp [dateLE, ha', hb']
  have hsub : List.Sublist (l.filter (fun e => decide (dateKey e.date = k))) (sortByDate l) :=
    List.sublist_mergeSort dateLE_trans dateLE_total hp (List.filter_sublist l)
  have hall : (l.filter (fun e => decide (dateKey e.date = k))).filter
      (fun e => decide (dateKey e.date = k)) =
      l.filter (fun e => decide (dateKey e.date = k)) :=
    List.filter_eq_self.mpr (fun a ha => (List.mem_filter.mp ha).2)
  have hsub2 : List.Sublist (l.filter (fun e => decide (dateKey e.date = k)))
      ((sortByDate l).filter (fun e => decide (dateKey e.date = k))) := by
    have h2 := hsub.filter (fun e => decide (dateKey e.date = k))
    rwa [hall] at h2
  have hperm : List.Perm ((sortByDate l).filter (fun e => decide (dateKey e.date = k)))
      (l.filter (fun e => decide (dateKey e.date = k))) :=
    (sortByDate_perm l).filter _
  exact (hsub2.eq_of_length hperm.length_eq.symm).symm

/-- C4: a successful add appends the one validated record, re-sorts the full
list by date ascending, does so stably (records of equal date keep their
relative order), and persists the complete resulting list. -/
theorem claim4_add_sorted_stable_persisted (s : AppState) (valor : ℚ)
    (descricao data orig : String) (categorized : Option ExpenseCategory) (newId : String)
    (hvalid : isValidDateString data = true) :
    (handleAddExpense s valor descricao data orig categorized newId).expenses =
      sortByDate (s.expenses ++
        [(⟨newId, valor, descricao, data, categorized.getD ExpenseCategory.OUTROS, orig⟩ : Expense)]) ∧
    ((handleAddExpense s valor descricao data orig categorized newId).expenses).Pairwise
      (fun a b => dateLE a b = true) ∧
    (∀ k : Nat, ((handleAddExpense s valor descricao data orig categorized newId).expenses).filter
        (fun e => decide (dateKey e.date = k)) =
      (s.expenses ++
        [(⟨newId, valor, descricao, data, categorized.getD ExpenseCategory.OUTROS, orig⟩ : Expense)]).filter
        (fun e => decide (dateKey e.date = k))) ∧
    (handleAddExpense s valor descricao data orig categorized newId).storage =
      some (handleAddExpense s valor descricao data orig categorized newId).expenses := by
  have hexp : (handleAddExpense s valor descricao data orig categorized newId).expenses =
      sortByDate (s.expenses ++
        [(⟨newId, valor, descricao, data, categorized.getD ExpenseCategory.OUTROS, orig⟩ : Expense)]) := by
    simp only [handleAddExpense, hvalid, Bool.true_eq_false, if_false]
    split <;> rfl
  have hsto : (handleAddExpense s valor descricao data orig categorized newId).storage =
      some (handleAddExpense s valor descricao data orig categorized newId).expenses := by
    simp only [handleAddExpense, hvalid, Bool.true_eq_false, if_false]
    split <;> rfl
  refine ⟨hexp, ?_, ?_, hsto⟩
  · rw [hexp]
    exact sortByDate_sorted _
  · intro k
    rw [hexp]
    exact sortByDate_filter_dateKey _ k

/-- Witness for C4: adding a concrete valid expense to the scenario state
yields the stably re-sorted, persisted list. -/
theorem claim4_witness :
    isValidDateString "2024-06-02" = true ∧
    (handleAddExpense wState 30 "lanche" "2024-06-02" "Lanche 30" none "id3").expenses =
      sortByDate (wState.expenses ++
        [(⟨"id3", 30, "lanche", "2024-06-02", ExpenseCategory.OUTROS, "Lanche 30"⟩ : Expense)]) ∧
    ((handleAddExpense wState 30 "lanche" "2024-06-02" "Lanche 30" none "id3").expenses).Pairwise
      (fun a b => dateLE a b = true) ∧
    ((handleAddExpense wState 30 "lanche" "2024-06-02" "Lanche 30" none "id3").expenses).filter
        (fun e => decide (dateKey e.date = dateKey "2024-06-02")) =
      (wState.expenses ++
        [(⟨"id3", 30, "lanche", "2024-06-02", ExpenseCategory.OUTROS, "Lanche 30"⟩ : Expense)]).filter
        (fun e => decide (dateKey e.date = dateKey "2024-06-02")) ∧
    (handleAddExpense wState 30 "lanche" "2024-06-02" "Lanche 30" none "id3").storage =
      some (handleAddExpense wState 30 "lanche" "2024-06-02" "Lanche 30" none "id3").expenses := by
  have h := claim4_add_sorted_stable_persisted wState 30 "lanche" "2024-06-02" "Lanche 30"
    none "id3" (by decide)
  exact ⟨by decide, h.1, h.2.1, h.2.2.1 (dateKey "2024-06-02"), h.2.2.2⟩

/-- C5: an extraction result whose date fails the `YYYY-MM-DD` shape test or
is not a real calendar date is rejected with a user-visible validation error
and creates no record: the expense list, the persisted blob and the selected
month are unchanged. -/
theorem claim5_invalid_date_rejected (s : AppState) (valor : ℚ)
    (descricao data orig : String) (categorized : Option ExpenseCategory) (newId : String)
    (hinvalid : isValidDateString data = false) :
    (handleAddExpense s valor descricao data orig categorized newId).expenses = s.expenses ∧
    (handleAddExpense s valor descricao data orig categorized newId).storage = s.storage ∧
    (handleAddExpense s valor descricao data orig categorized newId).selectedMonth =
      s.selectedMonth ∧
    (handleAddExpense s valor descricao data orig categorized newId).toast =
      some (ToastType.error, ToastMsg.invalidDate data) := by
  simp [handleAddExpense, hinvalid]

/-- Witness for C5: the extraction date "2024-13-40" of the spec scenario is
rejected and leaves the scenario state's list untouched. -/
theorem claim5_witness :
    isValidDateString "2024-13-40" = false ∧
    (handleAddExpense wState 30 "lanche" "2024-13-40" "x" none "id3").expenses =
      wState.expenses ∧
    (handleAddExpense wState 30 "lanche" "2024-13-40" "x" none "id3").toast =
      some (ToastType.error, ToastMsg.invalidDate "2024-13-40") := by
  have h := claim5_invalid_date_rejected wState 30 "lanche" "2024-13-40" "x" none "id3"
    (by decide)
  exact ⟨by decide, h.1, h.2.2.2⟩

/-- C8: a successful add whose expense month differs from the selected month
switches the selected month to the expense's month; when the months agree the
selected month is unchanged. -/
theorem claim8_selectedMonth_switch (s : AppState) (valor : ℚ)
    (descricao data orig : String) (categorized : Option ExpenseCategory) (newId : String)
    (hvalid : isValidDateString data = true) :
    (s.selectedMonth ≠ monthSlice data →
      (handleAddExpense s valor descricao data orig categorized newId).selectedMonth =
        monthSlice data) ∧
    (s.selectedMonth = monthSlice data →
      (handleAddExpense s valor descricao data orig categorized newId).selectedMonth =
        s.selectedMonth) := by
  constructor <;> intro h <;> simp [handleAddExpense, hvalid, h]

/-- Witness for C8: adding an expense dated 2024-06-02 while 2024-05 is
selected switches the selected month to 2024-06. -/
theorem claim8_witness :
    isValidDateString "2024-06-02" = true ∧
    wState.selectedMonth ≠ monthSlice "2024-06-02" ∧
    (handleAddExpense wState 30 "lanche" "2024-06-02" "Lanche 30" none "id3").selectedMonth =
      monthSlice "2024-06-02" := by
  have h := claim8_selectedMonth_switch wState 30 "lanche" "2024-06-02" "Lanche 30" none "id3"
    (by decide)
  exact ⟨by decide, by decide, h.1 (by decide)⟩

/-- C6 (amended): the load effect returns the persisted records sorted
ascending by date; a missing storage key, or a key holding the empty string
(both falsy under the `if (storedExpenses)` guard), yields the empty list
with no error; a non-empty unparsable blob, however, makes the uncaught
`JSON.parse` exception escape the effect (an error result), rather than
yielding an empty list. -/
theorem claim6_load_spec (stored : Option String) (parse : String → Option (List Expense)) :
    (stored = none → loadFromStorage stored parse = Except.ok []) ∧
    (stored = some "" → loadFromStorage stored parse = Except.ok []) ∧
    (∀ str, stored = some str → str ≠ "" → parse str = none →
       loadFromStorage stored parse = Except.error ()) ∧
    (∀ str l, stored = some str → str ≠ "" → parse str = some l →
       loadFromStorage stored parse = Except.ok (sortByDate l) ∧
       (sortByDate l).Pairwise (fun a b => dateLE a b = true)) := by
  refine ⟨?_, ?_, ?_, ?_⟩
  · rintro rfl
    rfl
  · rintro rfl
    rfl
  · rintro str rfl hne hp
    simp [loadFromStorage, hne, hp]
  · rintro str l rfl hne hp
    exact ⟨by simp [loadFromStorage, hne, hp], sortByDate_sorted l⟩

/-- Witness for C6: a missing storage key, or one holding the empty string,
loads the empty list without error. -/
theorem claim6_witness :
    loadFromStorage none wParse = Except.ok [] ∧
    loadFromStorage (some "") wParse = Except.ok [] :=
  ⟨(claim6_load_spec none wParse).1 rfl, (claim6_load_spec (some "") wParse).2.1 rfl⟩

/-- Counterexample for C6 as stated: with the storage key present and holding
the non-empty blob "{", which is truthy but not valid JSON (the platform
`JSON.parse` throws on it, modelled by `wParse` returning `none`), the load
effect propagates the error instead of returning the empty list that the
claim promises for corrupt content. -/
theorem claim6_counterexample :
    loadFromStorage (some "\x7b") wParse = Except.error () ∧
    loadFromStorage (some "\x7b") wParse ≠ Except.ok [] := by
  exact ⟨rfl, by simp [loadFromStorage, wParse]⟩

/-- C7: when the interpreter classifies the input as a category-total request
for category `c`, processing shows an informational message carrying exactly
the selected month's total for `c` (zero when the month has no summary) and
leaves the expense list, the persisted blob and the selected month
unmodified. -/
theorem claim7_category_total_query (s : AppState) (c : ExpenseCategory)
    (parsedExpense : Option ParsedExpenseData) (categorized : Option ExpenseCategory)
    (newId : String)
    (hin : strTrim s.userInput ≠ "") (hkey : s.apiKeyExists = true) :
    (handleProcessInput s (some ⟨QueryType.TOTAL_CATEGORIA, some c⟩) parsedExpense
        categorized newId).state.expenses = s.expenses ∧
    (handleProcessInput s (some ⟨QueryType.TOTAL_CATEGORIA, some c⟩) parsedExpense
        categorized newId).state.storage = s.storage ∧
    (handleProcessInput s (some ⟨QueryType.TOTAL_CATEGORIA, some c⟩) parsedExpense
        categorized newId).state.selectedMonth = s.selectedMonth ∧
    (handleProcessInput s (some ⟨QueryType.TOTAL_CATEGORIA, some c⟩) parsedExpense
        categorized newId).state.toast =
      some (ToastType.info, ToastMsg.categoryTotal c s.selectedMonth
        (((monthlySummaryData s.expenses s.selectedMonth).map
          (fun d => d.categoryTotals c)).getD 0)) := by
  have hcond : ¬(strTrim s.userInput = "" ∨ s.apiKeyExists = false) := by
    simp [hin, hkey]
  simp [handleProcessInput, hcond]

/-- Witness for C7: on the scenario state (Food total 50 in 2024-05), a
category-total request for Food reports exactly 50 and leaves the expense
list unmodified. -/
theorem claim7_witness :
    strTrim wState.userInput ≠ "" ∧
    wState.apiKeyExists = true ∧
    (handleProcessInput wState (some ⟨QueryType.TOTAL_CATEGORIA,
        some ExpenseCategory.ALIMENTACAO⟩) none none "id9").state.expenses =
      wState.expenses ∧
    (handleProcessInput wState (some ⟨QueryType.TOTAL_CATEGORIA,
        some ExpenseCategory.ALIMENTACAO⟩) none none "id9").state.toast =
      some (ToastType.info, ToastMsg.categoryTotal ExpenseCategory.ALIMENTACAO "2024-05" 50) := by
  have h := claim7_category_total_query wState ExpenseCategory.ALIMENTACAO none none "id9"
    (by decide) rfl
  refine ⟨by decide, rfl, h.1, ?_⟩
  rw [h.2.2.2]
  have hv : (((monthlySummaryData wState.expenses wState.selectedMonth).map
      (fun d => d.categoryTotals ExpenseCategory.ALIMENTACAO)).getD 0) = 50 := by
    with_unfolding_all rfl
  rw [hv]
  rfl

/-- C10: blank (empty or all-whitespace) input, or a missing API credential,
short-circuits the submission flow: the interpreter is never called, the
expense list, persisted blob and selected month are untouched, and only an
error notification is produced. -/
theorem claim10_blank_or_no_key (s : AppState) (interpretation : Option ParsedQuery)
    (parsedExpense : Option ParsedExpenseData) (categorized : Option ExpenseCategory)
    (newId : String)
    (h : strTrim s.userInput = "" ∨ s.apiKeyExists = false) :
    (handleProcessInput s interpretation parsedExpense categorized newId).interpreterCalled
      = false ∧
    (handleProcessInput s interpretation parsedExpense categorized newId).state.expenses
      = s.expenses ∧
    (handleProcessInput s interpretation parsedExpense categorized newId).state.selectedMonth
      = s.selectedMonth ∧
    (handleProcessInput s interpretation parsedExpense categorized newId).state.storage
      = s.storage ∧
    ((handleProcessInput s interpretation parsedExpense categorized newId).state.toast =
        some (ToastType.error, ToastMsg.apiKeyMissing) ∨
     (handleProcessInput s interpretation parsedExpense categorized newId).state.toast =
        some (ToastType.error, ToastMsg.emptyInput)) := by
  by_cases hk : s.apiKeyExists = false
  · simp [handleProcessInput, hk]
  · have hblank : strTrim s.userInput = "" := h.resolve_right hk
    simp [handleProcessInput, hblank, hk]

/-- Witness for C10: whitespace-only input on the scenario state produces only
an error toast, calls no interpreter and changes nothing. -/
theorem claim10_witness :
    (strTrim ({ wState with userInput := "   " } : AppState).userInput = "" ∨
      ({ wState with userInput := "   " } : AppState).apiKeyExists = false) ∧
    (handleProcessInput { wState with userInput := "   " }
        (some ⟨QueryType.RESUMO_GERAL, none⟩) none none "id9").interpreterCalled = false ∧
    (handleProcessInput { wState with userInput := "   " }
        (some ⟨QueryType.RESUMO_GERAL, none⟩) none none "id9").state.expenses =
      ({ wState with userInput := "   " } : AppState).expenses ∧
    (handleProcessInput { wState with userInput := "   " }
        (some ⟨QueryType.RESUMO_GERAL, none⟩) none none "id9").state.toast =
      some (ToastType.error, ToastMsg.emptyInput) := by
  have hcond : strTrim ({ wState with userInput := "   " } : AppState).userInput = "" ∨
      ({ wState with userInput := "   " } : AppState).apiKeyExists = false := by
    left
    decide
  have h := claim10_blank_or_no_key { wState with userInput := "   " }
    (some ⟨QueryType.RESUMO_GERAL, none⟩) none none "id9" hcond
  exact ⟨hcond, h.1, h.2.1, by decide⟩

/-- Per-category totals are additive over list append. -/
theorem catSum_append (c : ExpenseCategory) (l1 l2 : List Expense) :
    catSum c (l1 ++ l2) = catSum c l1 + catSum c l2 := by
  simp [catSum]

/-- Per-category totals of a single expense. -/
theorem catSum_singleton (c : ExpenseCategory) (e : Expense) :
    catSum c [e] = if e.category = c then e.amount else 0 := by
  simp [catSum]

/-- With nonnegative amounts, every per-category total is nonnegative. -/
theorem catSum_nonneg (c : ExpenseCategory) (l : List Expense)
    (h : ∀ e ∈ l, 0 ≤ e.amount) : 0 ≤ catSum c l := by
  apply List.sum_nonneg
  intro x hx
  rw [List.mem_map] at hx
  obtain ⟨e, he, rfl⟩ := hx
  by_cases hc : e.category = c
  · simpa [hc] using h e he
  · simp [hc]

/-- With nonnegative amounts, a prefix's per-category total never exceeds the
whole list's. -/
theorem catSum_take_le (c : ExpenseCategory) (l : List Expense) (k : Nat)
    (h : ∀ e ∈ l, 0 ≤ e.amount) : catSum c (l.take k) ≤ catSum c l := by
  conv_rhs => rw [← List.take_append_drop k l]
  rw [catSum_append]
  have hd : 0 ≤ catSum c (l.drop k) :=
    catSum_nonneg c (l.drop k) (fun e he => h e (List.mem_of_mem_drop he))
  linarith

/-- The highest-spending entry is replaced only when a strictly greater
running total is reached: when the updated running total of the expense's
category does not exceed the recorded amount, the entry is unchanged. -/
theorem aggStep_no_update (st : AggState) (e : Expense) (hc : ExpenseCategory) (ha : ℚ)
    (hh : st.highest = some (hc, ha)) (hle : ¬ ha < st.summary e.category + e.amount) :
    (aggStep st e).highest = st.highest := by
  simp [aggStep, hh, hle]

/-- Invariant of the aggregation fold over a list of positive-amount expenses:
the highest-spending entry is absent exactly on the empty list, and when
present it records its category's exact total, that total is the maximum of
all category totals, and the recorded category is the one whose running total
first reached that value during the forward scan. -/
theorem foldl_aggStep_highest_invariant (l : List Expense)
    (hpos : ∀ e ∈ l, 0 < e.amount) :
    ((l.foldl aggStep initAgg).highest = none ↔ l = []) ∧
    (∀ w a, (l.foldl aggStep initAgg).highest = some (w, a) →
      a = catSum w l ∧ (∀ c, catSum c l ≤ a) ∧
      (∀ c k, catSum c (l.take k) = a → ∃ j, j ≤ k ∧ catSum w (l.take j) = a)) := by
  induction l using List.reverseRecOn with
  | nil =>
    constructor
    · simp [initAgg]
    · intro w a h
      simp [initAgg] at h
  | append_singleton l e ih =>
    have hpe : 0 < e.amount := hpos e (by simp)
    have hpl : ∀ x ∈ l, 0 < x.amount := fun x hx => hpos x (by simp [hx])
    have hnn : ∀ x ∈ l, 0 ≤ x.amount := fun x hx => (hpl x hx).le
    have ihh := ih hpl
    have hsum : ∀ c, (l.foldl aggStep initAgg).summary c = catSum c l := by
      intro c
      rw [foldl_aggStep_summary]
      simp [initAgg]
    simp only [List.foldl_append, List.foldl_cons, List.foldl_nil]
    rcases hhi : (l.foldl aggStep initAgg).highest with _ | ⟨hc, ha⟩
    · -- no entry yet: the scanned list is empty
      have hl : l = [] := ihh.1.mp hhi
      subst hl
      simp only [List.foldl_nil, List.nil_append]
      have hstep0 : (aggStep initAgg e).highest = some (e.category, e.amount) := by
        simp [aggStep, initAgg]
      constructor
      · simp [hstep0]
      · intro w a hwa
        rw [hstep0, Option.some.injEq, Prod.mk.injEq] at hwa
        obtain ⟨rfl, rfl⟩ := hwa
        refine ⟨by simp [catSum], ?_, ?_⟩
        · intro c
          by_cases hc2 : e.category = c
          · subst hc2
            simp [catSum]
          · simp [catSum_singleton, hc2, hpe.le]
        · intro c k hck
          match k with
          | 0 =>
            exfalso
            simp [catSum] at hck
            linarith
          | k + 1 =>
            refine ⟨k + 1, le_refl _, ?_⟩
            rw [List.take_of_length_le (by simp), catSum_singleton, if_pos rfl]
    · -- an entry (hc, ha) is recorded for the scanned prefix
      obtain ⟨iha, ihmax, ihtie⟩ := ihh.2 hc ha hhi
      have hstep : (aggStep (l.foldl aggStep initAgg) e).highest =
          if ha < catSum e.category l + e.amount
          then some (e.category, catSum e.category l + e.amount)
          else some (hc, ha) := by
        simp [aggStep, hhi, hsum]
      by_cases hlt : ha < catSum e.category l + e.amount
      · -- strictly greater running total: the entry is replaced
        rw [if_pos hlt] at hstep
        constructor
        · simp [hstep]
        · intro w a hwa
          rw [hstep, Option.some.injEq, Prod.mk.injEq] at hwa
          obtain ⟨rfl, rfl⟩ := hwa
          refine ⟨?_, ?_, ?_⟩
          · rw [catSum_append, catSum_singleton, if_pos rfl]
          · intro c
            rw [catSum_append, catSum_singleton]
            by_cases hc2 : e.category = c
            · subst hc2
              simp
            · rw [if_neg hc2, add_zero]
              have h2 : catSum c l ≤ ha := ihmax c
              linarith
          · intro c k hck
            by_cases hk : k ≤ l.length
            · exfalso
              rw [List.take_append_of_le_length hk] at hck
              have h1 : catSum c (l.take k) ≤ catSum c l := catSum_take_le c l k hnn
              have h2 : catSum c l ≤ ha := ihmax c
              linarith
            · push_neg at hk
              have hlen : (l ++ [e]).length ≤ k := by
                simp only [List.length_append, List.length_cons, List.length_nil]
                omega
              rw [List.take_of_length_le hlen] at hck
              by_cases hc2 : c = e.category
              · subst hc2
                exact ⟨k, le_refl k, by rw [List.take_of_length_le hlen]; exact hck⟩
              · exfalso
                rw [catSum_append, catSum_singleton,
                  if_neg (fun hh2 => hc2 hh2.symm), add_zero] at hck
                have h2 : catSum c l ≤ ha := ihmax c
                linarith
      · -- no strictly greater total: the entry is kept
        rw [if_neg hlt] at hstep
        push_neg at hlt
        have hne : e.category ≠ hc := by
          intro hEq
          rw [hEq, ← iha] at hlt
          linarith
        constructor
        · simp [hstep]
        · intro w a hwa
          rw [hstep, Option.some.injEq, Prod.mk.injEq] at hwa
          obtain ⟨rfl, rfl⟩ := hwa
          refine ⟨?_, ?_, ?_⟩
          · rw [catSum_append, catSum_singleton, if_neg hne, add_zero]
            exact iha
          · intro c
            rw [catSum_append, catSum_singleton]
            by_cases hc2 : e.category = c
            · subst hc2
              rw [if_pos rfl]
              linarith [ihmax e.category]
            · rw [if_neg hc2, add_zero]
              exact ihmax c
          · intro c k hck
            by_cases hk : k ≤ l.length
            · rw [List.take_append_of_le_length hk] at hck
              obtain ⟨j, hj, hwj⟩ := ihtie c k hck
              have hjlen : j ≤ l.length := le_trans hj hk
              exact ⟨j, hj, by rw [List.take_append_of_le_length hjlen]; exact hwj⟩
            · push_neg at hk
              refine ⟨l.length, by omega, ?_⟩
              rw [List.take_append_of_le_length (le_refl _), List.take_length]
              exact iha.symm

/-- C2: with all amounts positive, whenever the aggregator produces a summary
its highest-spending entry is present, records exactly its category's final
total, that total is the maximum of the nine final category totals (which are
the per-category sums over the matched expenses), the entry is only ever
replaced during the scan by a strictly greater running total, and the winning
category is the one whose running total first reached the maximum value
during the forward scan (the first-reached tie-break). -/
theorem claim2_highestSpending_max_first (expenses : List Expense) (selectedMonth : String)
    (hpos : ∀ e ∈ expenses, 0 < e.amount)
    (d : MonthlySummaryData) (h : monthlySummaryData expenses selectedMonth = some d) :
    ∃ w a, d.highestSpending = some (w, a) ∧
      a = d.categoryTotals w ∧
      (∀ c, d.categoryTotals c ≤ a) ∧
      (∀ c, d.categoryTotals c =
        catSum c (expenses.filter (fun e => strStartsWith e.date selectedMonth))) ∧
      (∀ st e hc2 ha2, st.highest = some (hc2, ha2) →
        ¬ ha2 < st.summary e.category + e.amount → (aggStep st e).highest = st.highest) ∧
      (∀ c k,
        catSum c ((expenses.filter (fun e => strStartsWith e.date selectedMonth)).take k) = a →
        ∃ j, j ≤ k ∧
          catSum w ((expenses.filter (fun e => strStartsWith e.date selectedMonth)).take j)
            = a) := by
  have hposm : ∀ e ∈ expenses.filter (fun e => strStartsWith e.date selectedMonth),
      0 < e.amount := fun e he => hpos e (List.mem_of_mem_filter he)
  have hinv := foldl_aggStep_highest_invariant
    (expenses.filter (fun e => strStartsWith e.date selectedMonth)) hposm
  simp only [monthlySummaryData] at h
  split at h
  · exact absurd h (by simp)
  · rename_i hcond
    rw [Option.some.injEq] at h
    subst h
    rcases hhi : ((expenses.filter (fun e => strStartsWith e.date selectedMonth)).foldl
        aggStep initAgg).highest with _ | ⟨w, a⟩
    · exfalso
      have hnil := hinv.1.mp hhi
      apply hcond
      rw [hnil]
      simp only [List.foldl_nil]
      exact ⟨rfl, fun c _ => rfl⟩
    · obtain ⟨ha, hmax, htie⟩ := hinv.2 w a hhi
      refine ⟨w, a, ?_, ?_, ?_, ?_, ?_, ?_⟩
      · exact hhi
      · simp only [foldl_aggStep_summary, initAgg, zero_add]
        exact ha
      · intro c
        simp only [foldl_aggStep_summary, initAgg, zero_add]
        exact hmax c
      · intro c
        simp only [foldl_aggStep_summary, initAgg, zero_add]
      · exact fun st e hc2 ha2 hh hle => aggStep_no_update st e hc2 ha2 hh hle
      · exact htie

/-- Witness for C2: in the scenario, Fixed Bills (total 500) is the recorded
highest-spending entry, records its exact total, and bounds the other
categories' totals. -/
theorem claim2_witness :
    (∀ e ∈ wExpenses, 0 < e.amount) ∧
    monthlySummaryData wExpenses "2024-05" = some wSummary ∧
    wSummary.highestSpending = some (ExpenseCategory.CONTAS_FIXAS, 500) ∧
    wSummary.categoryTotals ExpenseCategory.CONTAS_FIXAS = 500 ∧
    wSummary.categoryTotals ExpenseCategory.ALIMENTACAO ≤ 500 := by
  have hpos : ∀ e ∈ wExpenses, 0 < e.amount := by decide
  have h : monthlySummaryData wExpenses "2024-05" = some wSummary := by
    with_unfolding_all rfl
  obtain ⟨w, a, hw, hamt, hmax, -, -, -⟩ :=
    claim2_highestSpending_max_first wExpenses "2024-05" hpos wSummary h
  have hval : wSummary.highestSpending = some (ExpenseCategory.CONTAS_FIXAS, 500) := by
    with_unfolding_all rfl
  rw [hval, Option.some.injEq, Prod.mk.injEq] at hw
  obtain ⟨rfl, rfl⟩ := hw
  exact ⟨hpos, h, hval, hamt.symm, hmax ExpenseCategory.ALIMENTACAO⟩

end Gestor
